import Mathlib

/-!
Shallow embedding of the opencron scheduling/execution engine
(`internal/engine/cron.go`), its store surface (`internal/store/store.go`)
and the log-reading handler (`internal/handlers/api.go`), together with
proofs of the specified properties.

Conventions of the embedding:
* Go `int` is modelled as `Int`; task ids come from the sqlite store.
* `time.Time` is modelled as a record carrying the instant (`unix`), its
  `Format("20060102")` rendering (`day`) and its RFC3339 rendering
  (`rfc3339`); the engine only consumes these three views.
* The external robfig/cron schedule parser is treated as a capability
  (spec section 2): an arbitrary validity predicate `valid : String → Bool`
  decides whether `cron.AddFunc` accepts a schedule expression.
* Fallible environment steps (store writes, mkdir, file open, command run)
  are driven by a `RunEnv` record of outcomes, so that every branch of the
  Go code is represented.
* Side effects are made explicit: the store is a list of task rows, the
  log directory is an association list `file name → content`, and the
  calls the engine issues are recorded in an `Event` trace in issue order.
-/

namespace OpenCron

/-- Association-list lookup, first binding wins (models Go map reads and
the first row returned by a sqlite query). -/
def alistLookup {α β : Type} [DecidableEq α] : List (α × β) → α → Option β
  | [], _ => none
  | p :: rest, k => if p.1 = k then some p.2 else alistLookup rest k

/-- Go map assignment `m[k] = v`: any previous binding of `k` is replaced. -/
def mapInsert {α β : Type} [DecidableEq α] (m : List (α × β)) (k : α) (v : β) :
    List (α × β) :=
  (k, v) :: m.filter (fun p => decide (p.1 ≠ k))

/-- The three views of a `time.Time` value that the engine consumes. -/
structure Time where
  unix : Int
  day : String
  rfc3339 : String
deriving DecidableEq, Repr

/-- A task row, as in `internal/models/task.go`. -/
structure Task where
  ID : Int
  Name : String
  Schedule : String
  Command : String
  Enabled : Bool
  OneShot : Bool
  CreatedAt : Time
  LastRun : Time
deriving DecidableEq, Repr

/-- The persisted task table: a list of rows (ids are unique in the real
store, a primary key; theorems state any uniqueness they need). -/
abbrev StoreState := List Task

/-- `Store.UpdateLastRun`: `UPDATE tasks SET last_run=? WHERE id=?`. -/
def storeUpdateLastRun (s : StoreState) (id : Int) (t : Time) : StoreState :=
  s.map (fun x => if x.ID = id then { x with LastRun := t } else x)

/-- `Store.DeleteTask`: `DELETE FROM tasks WHERE id=?`. -/
def storeDeleteTask (s : StoreState) (id : Int) : StoreState :=
  s.filter (fun x => decide (x.ID ≠ id))

/-- The store-level error the engine distinguishes: `sql.ErrNoRows`. -/
inductive StoreErr where
  | errNoRows
deriving DecidableEq, Repr

/-- `Store.GetTaskByID`: first row with the id, or `sql.ErrNoRows`. -/
def storeGetTaskByID (s : StoreState) (id : Int) : Except StoreErr Task :=
  match s.find? (fun x => decide (x.ID = id)) with
  | some t => .ok t
  | none => .error .errNoRows

/-- Engine state: the registry `entries` (task id → cron entry id, a Go
map), the cron scheduler's live entry set `cronEntries` (entry id → the
task id its callback was registered for), and the scheduler's next fresh
entry id. -/
structure EngineState where
  entries : List (Int × Nat)
  cronEntries : List (Nat × Int)
  nextEntryId : Nat
deriving DecidableEq, Repr

/-- `engine.New`: empty registry, fresh cron scheduler. -/
def engineNew : EngineState :=
  { entries := [], cronEntries := [], nextEntryId := 0 }

/-- `cron.AddFunc`: parse the schedule with the external parser `valid`;
on success register a fresh live entry and return its id. -/
def cronAddFunc (valid : String → Bool) (st : EngineState) (sched : String)
    (tid : Int) : Option Nat × EngineState :=
  if valid sched then
    (some st.nextEntryId,
     { st with
        cronEntries := st.cronEntries ++ [(st.nextEntryId, tid)],
        nextEntryId := st.nextEntryId + 1 })
  else
    (none, st)

/-- `Engine.addTask` (cron.go:308-320): register the task's trigger; on a
parse failure the error is only logged and the registry is untouched. -/
def addTask (valid : String → Bool) (st : EngineState) (t : Task) : EngineState :=
  match cronAddFunc valid st t.Schedule t.ID with
  | (some entryID, st') => { st' with entries := mapInsert st'.entries t.ID entryID }
  | (none, st') => st'

/-- The clearing prefix of `Engine.Reload` (cron.go:289-293): every entry
id held in the registry is removed from the cron scheduler and the
registry map is replaced by a fresh empty one. -/
def clearEntries (st : EngineState) : EngineState :=
  { st with
     cronEntries :=
       st.cronEntries.filter (fun ce => !(st.entries.any (fun p => p.2 == ce.1))),
     entries := [] }

/-- `Engine.Reload` (cron.go:285-306): clear, then read the task list;
on a store error return (registry left empty, the failure only logged),
otherwise register every enabled task. The `getTasks` argument is the
outcome of the `store.GetTasks()` call made inside this reload. -/
def Reload (valid : String → Bool) (st : EngineState)
    (getTasks : Except String (List Task)) : EngineState :=
  let st1 := clearEntries st
  match getTasks with
  | .error _ => st1
  | .ok tasks =>
      tasks.foldl (fun acc t => if t.Enabled then addTask valid acc t else acc) st1

/-- The log directory: association list from file name to file content. -/
abbrev FS := List (String × String)

/-- Open with `O_APPEND|O_CREATE` and write: append to the named file,
creating it when absent. -/
def fsAppend (fs : FS) (name : String) (s : String) : FS :=
  match alistLookup fs name with
  | some _ => fs.map (fun p => if p.1 = name then (p.1, p.2 ++ s) else p)
  | none => fs ++ [(name, s)]

/-- Content of a file, empty string when absent. -/
def fileContent (fs : FS) (name : String) : String :=
  (alistLookup fs name).getD ""

/-- Per-day log file name `task_<id>_<YYYYMMDD>.log` (cron.go:351). -/
def logFileName (id : Int) (day : String) : String :=
  "task_" ++ toString id ++ "_" ++ day ++ ".log"

/-- Run header marker (cron.go:358). -/
def startedMarker (name rfc : String) : String :=
  "\n--- Task " ++ name ++ " started at " ++ rfc ++ " ---\n"

/-- Marker written when the command is empty (cron.go:361). -/
def emptyCommandMarker (name : String) : String :=
  "--- Task " ++ name ++ " failed: empty command ---\n"

/-- Marker written when the shell command fails (cron.go:374). -/
def failedMarker (name msg : String) : String :=
  "--- Task " ++ name ++ " failed: " ++ msg ++ " ---\n"

/-- Marker written on success (cron.go:379). -/
def finishedMarker (name : String) : String :=
  "--- Task " ++ name ++ " finished successfully ---\n"

/-- Marker written when deleting a one-shot task fails (cron.go:383). -/
def deleteFailedMarker (msg : String) : String :=
  "--- Failed to delete one-shot task: " ++ msg ++ " ---\n"

/-- Marker written after a one-shot task is deleted (cron.go:387). -/
def oneShotDeletedMarker : String :=
  "--- One-shot task deleted after first run ---\n"

/-- Errors `runTask` can return, in source order of the branches. -/
inductive RunErr where
  | mkdirFailed (msg : String)
  | openLogFailed (msg : String)
  | emptyCommand
  | commandFailed (msg : String)
  | deleteOneShotFailed (msg : String)
deriving DecidableEq, Repr

/-- Calls the engine issues to its collaborators, recorded in issue order. -/
inductive Event where
  | updateLastRun (id : Int) (t : Time)
  | openLog (path : String)
  | runCmd (command : String)
  | deleteTask (id : Int)
  | reload
deriving DecidableEq, Repr

/-- Outcomes of the fallible environment steps of a single `runTask`
invocation: the wall clock and whether each external call succeeds. -/
structure RunEnv where
  now : Time
  updateLastRunOk : Bool
  mkdirOk : Bool
  mkdirErrMsg : String
  openOk : Bool
  openErrMsg : String
  cmdOk : Bool
  cmdErrMsg : String
  deleteOk : Bool
  deleteErrMsg : String
deriving DecidableEq, Repr

/-- Result of `Engine.runTask`: the two return values, plus the explicit
side effects (store, log directory) and the trace of issued calls. -/
structure RunResult where
  deleted : Bool
  error : Option RunErr
  store : StoreState
  fs : FS
  events : List Event
deriving DecidableEq, Repr

/-- `Engine.runTask` (cron.go:339-393). Every branch of the source is
represented; `env` supplies the outcome of each external call. -/
def runTask (t : Task) (st : StoreState) (fs : FS) (env : RunEnv) : RunResult :=
  let st1 := if env.updateLastRunOk then storeUpdateLastRun st t.ID env.now else st
  let ev0 := [Event.updateLastRun t.ID env.now]
  if !env.mkdirOk then
    { deleted := false, error := some (.mkdirFailed env.mkdirErrMsg),
      store := st1, fs := fs, events := ev0 }
  else if !env.openOk then
    { deleted := false, error := some (.openLogFailed env.openErrMsg),
      store := st1, fs := fs, events := ev0 }
  else
    let path := logFileName t.ID env.now.day
    let ev1 := ev0 ++ [Event.openLog path]
    let fs1 := fsAppend fs path (startedMarker t.Name env.now.rfc3339)
    if t.Command = "" then
      { deleted := false, error := some .emptyCommand, store := st1,
        fs := fsAppend fs1 path (emptyCommandMarker t.Name), events := ev1 }
    else
      let ev2 := ev1 ++ [Event.runCmd t.Command]
      if !env.cmdOk then
        { deleted := false, error := some (.commandFailed env.cmdErrMsg), store := st1,
          fs := fsAppend fs1 path (failedMarker t.Name env.cmdErrMsg), events := ev2 }
      else
        let fs2 := fsAppend fs1 path (finishedMarker t.Name)
        if t.OneShot then
          if !env.deleteOk then
            { deleted := false, error := some (.deleteOneShotFailed env.deleteErrMsg),
              store := st1,
              fs := fsAppend fs2 path (deleteFailedMarker env.deleteErrMsg),
              events := ev2 ++ [Event.deleteTask t.ID] }
          else
            { deleted := true, error := none, store := storeDeleteTask st1 t.ID,
              fs := fsAppend fs2 path oneShotDeletedMarker,
              events := ev2 ++ [Event.deleteTask t.ID, Event.reload] }
        else
          { deleted := false, error := none, store := st1, fs := fs2, events := ev2 }

/-- Errors `Engine.RunTaskNow` can return. `notFound` is the wrapped
`sql.ErrNoRows` (cron.go:330); `storeFailure` is any other error from
`GetTaskByID` (cron.go:332); `runFailed` forwards the `runTask` error. -/
inductive EngineErr where
  | notFound (id : Int)
  | storeFailure (msg : String)
  | runFailed (e : RunErr)
deriving DecidableEq, Repr

/-- `errors.Is(err, sql.ErrNoRows)` on an `EngineErr`: true exactly for
the wrapped not-found condition. -/
def errIsNoRows : EngineErr → Bool
  | .notFound _ => true
  | .storeFailure _ => false
  | .runFailed _ => false

/-- Result of `Engine.RunTaskNow`: the returned error and the side
effects of the (possible) synchronous run. -/
structure RunNowResult where
  error : Option EngineErr
  store : StoreState
  fs : FS
  events : List Event
deriving DecidableEq, Repr

/-- `Engine.RunTaskNow` (cron.go:326-337). `readErr` is a non-`ErrNoRows`
failure of the `GetTaskByID` database call, when one occurs; with a
healthy database the lookup itself decides between the not-found error
and a synchronous `runTask`. -/
def RunTaskNow (taskID : Int) (st : StoreState) (fs : FS)
    (readErr : Option String) (env : RunEnv) : RunNowResult :=
  match readErr with
  | some msg => { error := some (.storeFailure msg), store := st, fs := fs, events := [] }
  | none =>
    match storeGetTaskByID st taskID with
    | .error .errNoRows =>
        { error := some (.notFound taskID), store := st, fs := fs, events := [] }
    | .ok t =>
        let r := runTask t st fs env
        { error := r.error.map EngineErr.runFailed,
          store := r.store, fs := r.fs, events := r.events }

/-- A directory entry as seen by `os.ReadDir` plus the outcomes of the
two per-entry calls the janitor makes (`entry.Info()` and `os.Remove`). -/
structure DirEntry where
  name : String
  isDir : Bool
  modTime : Int
  infoOk : Bool
  removeOk : Bool
deriving DecidableEq, Repr

/-- Failure modes of `os.ReadDir` that `PurgeOldLogs` distinguishes. -/
inductive ReadDirErr where
  | notExist
  | other (msg : String)
deriving DecidableEq, Repr

/-- One janitor pass keeps an entry when it is a directory, its info call
failed, its modification time is not strictly before the cutoff
(`info.ModTime().Before(cutoff)` is Go strict less-than), or the remove
call failed. -/
def keepEntry (cutoff : Int) (f : DirEntry) : Bool :=
  f.isDir || !f.infoOk || !(decide (f.modTime < cutoff)) || !f.removeOk

/-- `Engine.PurgeOldLogs` (cron.go:251-283): first component is the log
directory after the pass, second is whether a directory-read error was
logged (`notExist` is silently treated as nothing-to-purge). -/
def PurgeOldLogs (dir : Except ReadDirErr (List DirEntry))
    (now retention : Int) : Except ReadDirErr (List DirEntry) × Bool :=
  match dir with
  | .error .notExist => (.error .notExist, false)
  | .error (.other msg) => (.error (.other msg), true)
  | .ok entries => (.ok (entries.filter (keepEntry (now - retention))), false)

/-- Legacy single-file log name `task_<id>.log` (api.go:340). -/
def legacyLogName (id : Int) : String :=
  "task_" ++ toString id ++ ".log"

/-- Prefix of the daily-file glob pattern `task_<id>_*.log` (api.go:341). -/
def dailyLogPre (id : Int) : String :=
  "task_" ++ toString id ++ "_"

/-- Whether a (separator-free) file name matches the glob
`task_<id>_*.log`: the literal prefix, the literal `.log` suffix, and
enough length that the two do not overlap (`*` may match the empty
string). -/
def matchesDailyPattern (id : Int) (name : String) : Bool :=
  (dailyLogPre id).data.isPrefixOf name.data &&
    ".log".data.isSuffixOf name.data &&
    decide ((dailyLogPre id).length + ".log".length ≤ name.length)

/-- Insert into a ≤-sorted list of names, keeping it sorted. -/
def insertSorted (x : String) : List String → List String
  | [] => [x]
  | y :: ys => if x ≤ y then x :: y :: ys else y :: insertSorted x ys

/-- The sorted order in which `filepath.Glob` returns its matches. -/
def sortNames (l : List String) : List String :=
  l.foldr insertSorted []

/-- Sequential builder writes: concatenate a list of strings in order. -/
def concatAll : List String → String
  | [] => ""
  | s :: rest => s ++ concatAll rest

/-- The GET `/api/tasks/<id>/logs` branch of `API.handleTasks`
(api.go:334-371): glob the daily files (sorted), prepend the legacy file
when it exists (`os.Stat` succeeds), and concatenate the files' contents
in that order (a file that fails to read contributes nothing). -/
def readTaskLogs (id : Int) (fs : FS) : String :=
  let dailyMatches := sortNames ((fs.map Prod.fst).filter (matchesDailyPattern id))
  let matchList :=
    if (alistLookup fs (legacyLogName id)).isSome then
      legacyLogName id :: dailyMatches
    else dailyMatches
  if matchList.isEmpty then "No logs found for this task."
  else concatAll (matchList.map (fun n => (alistLookup fs n).getD ""))

/-! Helper lemmas about association lists. -/

theorem alistLookup_append_left {α β : Type} [DecidableEq α]
    {l₁ : List (α × β)} (l₂ : List (α × β)) {k : α} {v : β}
    (h : alistLookup l₁ k = some v) : alistLookup (l₁ ++ l₂) k = some v := by
  induction l₁ with
  | nil => simp [alistLookup] at h
  | cons p rest ih =>
      simp only [alistLookup, List.cons_append] at h ⊢
      by_cases hp : p.1 = k
      · rwa [if_pos hp] at h ⊢
      · rw [if_neg hp] at h ⊢
        exact ih h

theorem alistLookup_append_right {α β : Type} [DecidableEq α]
    {l₁ : List (α × β)} (l₂ : List (α × β)) {k : α}
    (h : alistLookup l₁ k = none) :
    alistLookup (l₁ ++ l₂) k = alistLookup l₂ k := by
  induction l₁ with
  | nil => simp
  | cons p rest ih =>
      simp only [alistLookup, List.cons_append] at h ⊢
      by_cases hp : p.1 = k
      · rw [if_pos hp] at h
        exact absurd h (by simp)
      · rw [if_neg hp] at h ⊢
        exact ih h

theorem alistLookup_eq_none_of_forall {α β : Type} [DecidableEq α]
    {l : List (α × β)} {k : α} (h : ∀ p ∈ l, p.1 ≠ k) :
    alistLookup l k = none := by
  induction l with
  | nil => rfl
  | cons p rest ih =>
      simp only [alistLookup]
      rw [if_neg (h p (by simp))]
      exact ih (fun q hq => h q (by simp [hq]))

theorem alistLookup_isSome_iff {α β : Type} [DecidableEq α]
    {l : List (α × β)} {k : α} :
    (alistLookup l k).isSome ↔ ∃ p ∈ l, p.1 = k := by
  induction l with
  | nil => simp [alistLookup]
  | cons p rest ih =>
      simp only [alistLookup]
      by_cases hp : p.1 = k
      · simp [hp]
      · simp only [if_neg hp, ih, List.mem_cons]
        constructor
        · rintro ⟨q, hq, rfl⟩
          exact ⟨q, Or.inr hq, rfl⟩
        · rintro ⟨q, hq | hq, rfl⟩
          · exact absurd rfl (hq ▸ hp)
          · exact ⟨q, hq, rfl⟩

theorem alistLookup_mem {α β : Type} [DecidableEq α]
    {l : List (α × β)} {k : α} {v : β}
    (h : alistLookup l k = some v) : (k, v) ∈ l := by
  induction l with
  | nil => simp [alistLookup] at h
  | cons p rest ih =>
      simp only [alistLookup] at h
      by_cases hp : p.1 = k
      · rw [if_pos hp] at h
        injection h with hv
        have hpkv : p = (k, v) := by
          cases p
          simp_all
        rw [← hpkv]
        exact List.mem_cons_self _ _
      · rw [if_neg hp] at h
        exact List.mem_cons_of_mem _ (ih h)

theorem alistLookup_filter_ne {α β : Type} [DecidableEq α]
    (l : List (α × β)) {k k' : α} (h : k ≠ k') :
    alistLookup (l.filter (fun p => decide (p.1 ≠ k))) k' = alistLookup l k' := by
  induction l with
  | nil => rfl
  | cons p rest ih =>
      by_cases hp : p.1 = k
      · rw [List.filter_cons_of_neg (by simp [hp]), ih]
        have hne : ¬ p.1 = k' := by
          rw [hp]
          exact h
        simp only [alistLookup]
        rw [if_neg hne]
      · rw [List.filter_cons_of_pos (by simp [hp])]
        simp only [alistLookup, ih]

theorem alistLookup_mapInsert {α β : Type} [DecidableEq α]
    (m : List (α × β)) (k : α) (v : β) (k' : α) :
    alistLookup (mapInsert m k v) k' =
      if k = k' then some v else alistLookup m k' := by
  simp only [mapInsert, alistLookup]
  by_cases hk : k = k'
  · simp [hk]
  · rw [if_neg hk, if_neg hk]
    exact alistLookup_filter_ne m hk

theorem map_fst_filter_ne {α β : Type} [DecidableEq α]
    (m : List (α × β)) (k : α) :
    (m.filter (fun p => decide (p.1 ≠ k))).map Prod.fst =
      (m.map Prod.fst).filter (fun x => decide (x ≠ k)) := by
  induction m with
  | nil => rfl
  | cons p rest ih =>
      by_cases hp : p.1 = k
      · rw [List.filter_cons_of_neg (by simp [hp]), List.map_cons,
          List.filter_cons_of_neg (by simp [hp]), ih]
      · rw [List.filter_cons_of_pos (by simp [hp]), List.map_cons, List.map_cons,
          List.filter_cons_of_pos (by simp [hp]), ih]

/-! Engine-state invariant and lemmas about `Reload`'s fold. -/

/-- Well-formed engine state: every live cron entry id is below the
fresh-id counter, and every registry binding points at a live cron entry
registered for that task id. Holds for `engineNew` and is preserved by
the engine's operations. -/
def WF (st : EngineState) : Prop :=
  (∀ p ∈ st.cronEntries, p.1 < st.nextEntryId) ∧
  (∀ q ∈ st.entries, alistLookup st.cronEntries q.2 = some q.1)

theorem WF_engineNew : WF engineNew := by
  constructor <;> intro p hp <;> simp [engineNew] at hp

theorem WF_clearEntries {st : EngineState} (h : WF st) : WF (clearEntries st) := by
  constructor
  · intro p hp
    simp only [clearEntries, List.mem_filter] at hp
    exact h.1 p hp.1
  · intro q hq
    simp [clearEntries] at hq

theorem WF_addTask {st : EngineState} (valid : String → Bool) (t : Task)
    (h : WF st) : WF (addTask valid st t) := by
  unfold addTask cronAddFunc
  by_cases hv : valid t.Schedule
  · simp only [hv, if_pos]
    constructor
    · intro p hp
      simp only [List.mem_append, List.mem_singleton] at hp
      rcases hp with hp | hp
      · exact Nat.lt_succ_of_lt (h.1 p hp)
      · rw [hp]
        exact Nat.lt_succ_self _
    · intro q hq
      simp only [mapInsert, List.mem_cons, List.mem_filter] at hq
      rcases hq with hq | hq
      · rw [hq]
        have hnone : alistLookup st.cronEntries st.nextEntryId = none := by
          apply alistLookup_eq_none_of_forall
          intro p hp
          exact Nat.ne_of_lt (h.1 p hp)
        rw [alistLookup_append_right _ hnone]
        simp [alistLookup]
      · exact alistLookup_append_left _ (h.2 q hq.1)
  · simp only [hv]
    simpa using h

/-- The per-task body of `Reload`'s registration loop (cron.go:301-305). -/
def reloadStep (valid : String → Bool) (acc : EngineState) (t : Task) : EngineState :=
  if t.Enabled then addTask valid acc t else acc

theorem Reload_ok_eq (valid : String → Bool) (st : EngineState) (tasks : List Task) :
    Reload valid st (.ok tasks) = tasks.foldl (reloadStep valid) (clearEntries st) := by
  rfl

theorem WF_fold {valid : String → Bool} (tasks : List Task) {acc : EngineState}
    (h : WF acc) : WF (tasks.foldl (reloadStep valid) acc) := by
  induction tasks generalizing acc with
  | nil => exact h
  | cons t ts ih =>
      rw [List.foldl_cons]
      apply ih
      unfold reloadStep
      by_cases ht : t.Enabled
      · rw [if_pos ht]
        exact WF_addTask valid t h
      · rwa [if_neg ht]

theorem WF_Reload {st : EngineState} (valid : String → Bool)
    (r : Except String (List Task)) (h : WF st) : WF (Reload valid st r) := by
  cases r with
  | error e => exact WF_clearEntries h
  | ok tasks =>
      rw [Reload_ok_eq]
      exact WF_fold tasks (WF_clearEntries h)

theorem addTask_entries_lookup (valid : String → Bool) (st : EngineState)
    (t : Task) (id : Int) :
    alistLookup (addTask valid st t).entries id =
      if valid t.Schedule ∧ t.ID = id then some st.nextEntryId
      else alistLookup st.entries id := by
  unfold addTask cronAddFunc
  by_cases hv : valid t.Schedule
  · simp only [hv, if_pos, true_and]
    exact alistLookup_mapInsert _ _ _ _
  · simp [hv]

theorem fold_entries_lookup_isSome (valid : String → Bool) (tasks : List Task)
    (acc : EngineState) (id : Int) :
    (alistLookup (tasks.foldl (reloadStep valid) acc).entries id).isSome ↔
      (alistLookup acc.entries id).isSome ∨
        ∃ t ∈ tasks, t.ID = id ∧ t.Enabled = true ∧ valid t.Schedule = true := by
  induction tasks generalizing acc with
  | nil => simp
  | cons t ts ih =>
      rw [List.foldl_cons, ih]
      unfold reloadStep
      by_cases ht : t.Enabled
      · rw [if_pos ht, addTask_entries_lookup]
        by_cases hv : valid t.Schedule
        · by_cases hid : t.ID = id
          · simp [hv, hid, ht]
          · simp only [hv, hid, true_and, and_false, if_false, if_neg,
              List.mem_cons]
            constructor
            · rintro (h | h)
              · exact Or.inl h
              · exact Or.inr (by
                  obtain ⟨u, hu, h1, h2, h3⟩ := h
                  exact ⟨u, Or.inr hu, h1, h2, h3⟩)
            · rintro (h | ⟨u, hu | hu, h1, h2, h3⟩)
              · exact Or.inl h
              · exact absurd h1 (hu ▸ hid)
              · exact Or.inr ⟨u, hu, h1, h2, h3⟩
        · simp only [hv, false_and, if_false, List.mem_cons]
          constructor
          · rintro (h | ⟨u, hu, h1, h2, h3⟩)
            · exact Or.inl h
            · exact Or.inr ⟨u, Or.inr hu, h1, h2, h3⟩
          · rintro (h | ⟨u, hu | hu, h1, h2, h3⟩)
            · exact Or.inl h
            · exact absurd h3 (by rw [hu]; simp [hv])
            · exact Or.inr ⟨u, hu, h1, h2, h3⟩
      · rw [if_neg ht]
        simp only [List.mem_cons]
        constructor
        · rintro (h | ⟨u, hu, h1, h2, h3⟩)
          · exact Or.inl h
          · exact Or.inr ⟨u, Or.inr hu, h1, h2, h3⟩
        · rintro (h | ⟨u, hu | hu, h1, h2, h3⟩)
          · exact Or.inl h
          · exact absurd h2 (by rw [hu]; simpa using ht)
          · exact Or.inr ⟨u, hu, h1, h2, h3⟩

/-- Characterization of the registry right after a successful reload:
a task id is bound exactly when the snapshot holds an enabled task with
that id whose schedule the parser accepts. -/
theorem Reload_entries_lookup_isSome (valid : String → Bool) (st : EngineState)
    (tasks : List Task) (id : Int) :
    (alistLookup (Reload valid st (.ok tasks)).entries id).isSome ↔
      ∃ t ∈ tasks, t.ID = id ∧ t.Enabled = true ∧ valid t.Schedule = true := by
  rw [Reload_ok_eq, fold_entries_lookup_isSome]
  simp [clearEntries, alistLookup]

theorem addTask_entries_keys (valid : String → Bool) (st : EngineState) (t : Task) :
    (addTask valid st t).entries.map Prod.fst =
      if valid t.Schedule then
        t.ID :: (st.entries.map Prod.fst).filter (fun x => decide (x ≠ t.ID))
      else st.entries.map Prod.fst := by
  unfold addTask cronAddFunc
  by_cases hv : valid t.Schedule
  · simp only [hv, if_pos, mapInsert, List.map_cons]
    rw [map_fst_filter_ne]
  · simp [hv]

theorem fold_entries_keys (valid : String → Bool) (tasks : List Task)
    {acc₁ acc₂ : EngineState}
    (h : acc₁.entries.map Prod.fst = acc₂.entries.map Prod.fst) :
    (tasks.foldl (reloadStep valid) acc₁).entries.map Prod.fst =
      (tasks.foldl (reloadStep valid) acc₂).entries.map Prod.fst := by
  induction tasks generalizing acc₁ acc₂ with
  | nil => exact h
  | cons t ts ih =>
      rw [List.foldl_cons, List.foldl_cons]
      apply ih
      unfold reloadStep
      by_cases ht : t.Enabled
      · rw [if_pos ht, if_pos ht, addTask_entries_keys, addTask_entries_keys, h]
      · rwa [if_neg ht, if_neg ht]

/-- The sequence of task ids held by the registry after a successful
reload does not depend on the engine state the reload started from. -/
theorem Reload_entries_keys_congr (valid : String → Bool)
    (st₁ st₂ : EngineState) (tasks : List Task) :
    (Reload valid st₁ (.ok tasks)).entries.map Prod.fst =
      (Reload valid st₂ (.ok tasks)).entries.map Prod.fst := by
  rw [Reload_ok_eq, Reload_ok_eq]
  exact fold_entries_keys valid tasks (by simp [clearEntries])

theorem mapInsert_keys_nodup {α β : Type} [DecidableEq α]
    {m : List (α × β)} {k : α} {v : β} (h : (m.map Prod.fst).Nodup) :
    ((mapInsert m k v).map Prod.fst).Nodup := by
  simp only [mapInsert, List.map_cons, map_fst_filter_ne]
  refine List.Nodup.cons ?_ (h.filter _)
  intro hk
  rw [List.mem_filter] at hk
  simp at hk

theorem fold_entries_keys_nodup (valid : String → Bool) (tasks : List Task)
    {acc : EngineState} (h : (acc.entries.map Prod.fst).Nodup) :
    ((tasks.foldl (reloadStep valid) acc).entries.map Prod.fst).Nodup := by
  induction tasks generalizing acc with
  | nil => exact h
  | cons t ts ih =>
      rw [List.foldl_cons]
      apply ih
      unfold reloadStep addTask cronAddFunc
      by_cases ht : t.Enabled
      · rw [if_pos ht]
        by_cases hv : valid t.Schedule
        · simp only [hv, if_pos]
          exact mapInsert_keys_nodup h
        · simpa [hv]
      · rwa [if_neg ht]

/-- The registry never holds two bindings for one task id: after any
successful reload its key list is duplicate-free. -/
theorem Reload_entries_keys_nodup (valid : String → Bool) (st : EngineState)
    (tasks : List Task) :
    ((Reload valid st (.ok tasks)).entries.map Prod.fst).Nodup := by
  rw [Reload_ok_eq]
  exact fold_entries_keys_nodup valid tasks (by simp [clearEntries])

/-! Lemmas about the log directory and the store. -/

theorem alistLookup_map_append {fs : FS} {name : String} {old : String}
    (h : alistLookup fs name = some old) (s : String) :
    alistLookup (fs.map (fun p => if p.1 = name then (p.1, p.2 ++ s) else p)) name
      = some (old ++ s) := by
  induction fs with
  | nil => simp [alistLookup] at h
  | cons p rest ih =>
      simp only [alistLookup, List.map_cons] at h ⊢
      by_cases hp : p.1 = name
      · rw [if_pos hp] at h
        injection h with h
        subst h
        simp [hp, alistLookup]
      · rw [if_neg hp] at h
        simp only [if_neg hp, alistLookup]
        exact ih h

theorem fileContent_fsAppend (fs : FS) (name s : String) :
    fileContent (fsAppend fs name s) name = fileContent fs name ++ s := by
  unfold fileContent fsAppend
  cases h : alistLookup fs name with
  | none =>
      rw [alistLookup_append_right _ h]
      simp [alistLookup]
  | some old =>
      rw [alistLookup_map_append h s]
      simp

theorem storeUpdateLastRun_lastRun {s : StoreState} {id : Int} {tm : Time}
    {u : Task} (h : u ∈ storeUpdateLastRun s id tm) (hid : u.ID = id) :
    u.LastRun = tm := by
  simp only [storeUpdateLastRun, List.mem_map] at h
  obtain ⟨x, _, hx⟩ := h
  by_cases hxid : x.ID = id
  · rw [if_pos hxid] at hx
    rw [← hx]
  · rw [if_neg hxid] at hx
    exact absurd (hx ▸ hid) hxid

theorem storeUpdateLastRun_ids (s : StoreState) (id : Int) (tm : Time) :
    (storeUpdateLastRun s id tm).map Task.ID = s.map Task.ID := by
  unfold storeUpdateLastRun
  rw [List.map_map]
  apply List.map_congr_left
  intro x _
  by_cases hxid : x.ID = id
  · simp [hxid]
  · simp [hxid]

theorem storeGetTaskByID_deleted (s : StoreState) (id : Int) :
    storeGetTaskByID (storeDeleteTask s id) id = .error .errNoRows := by
  unfold storeGetTaskByID storeDeleteTask
  rw [List.find?_eq_none.mpr]
  intro x hx
  rw [List.mem_filter] at hx
  simpa using hx.2

/-! Claim theorems. -/

/-- C3: for every task whose command is the empty string (run in an
environment where the logs directory and log file are writable and the
store accepts the last-run write), `runTask` returns the empty-command
error, never issues a shell command, appends the "failed: empty command"
marker (after the started header) to the day's log file, and every store
row with the task's id has `last_run` set to the attempt time — the
previous value is gone and no later state advances it, since the run ends
here. -/
theorem runTask_empty_command (t : Task) (st : StoreState) (fs : FS)
    (env : RunEnv) (hcmd : t.Command = "") (hmk : env.mkdirOk = true)
    (hop : env.openOk = true) (hup : env.updateLastRunOk = true) :
    (runTask t st fs env).error = some RunErr.emptyCommand ∧
    (∀ c, Event.runCmd c ∉ (runTask t st fs env).events) ∧
    fileContent (runTask t st fs env).fs (logFileName t.ID env.now.day) =
      fileContent fs (logFileName t.ID env.now.day) ++
        startedMarker t.Name env.now.rfc3339 ++ emptyCommandMarker t.Name ∧
    (∀ u ∈ (runTask t st fs env).store, u.ID = t.ID → u.LastRun = env.now) := by
  have hfs : (runTask t st fs env).fs =
      fsAppend (fsAppend fs (logFileName t.ID env.now.day)
        (startedMarker t.Name env.now.rfc3339)) (logFileName t.ID env.now.day)
        (emptyCommandMarker t.Name) := by
    simp [runTask, hmk, hop, hcmd]
  have herr : (runTask t st fs env).error = some RunErr.emptyCommand := by
    simp [runTask, hmk, hop, hcmd]
  have hev : (runTask t st fs env).events =
      [Event.updateLastRun t.ID env.now,
       Event.openLog (logFileName t.ID env.now.day)] := by
    simp [runTask, hmk, hop, hcmd]
  have hst : (runTask t st fs env).store = storeUpdateLastRun st t.ID env.now := by
    simp [runTask, hmk, hop, hup, hcmd]
  refine ⟨herr, ?_, ?_, ?_⟩
  · intro c hc
    rw [hev] at hc
    simp at hc
  · rw [hfs, fileContent_fsAppend, fileContent_fsAppend]
  · intro u hu hid
    rw [hst] at hu
    exact storeUpdateLastRun_lastRun hu hid

/-- Example instants for concrete witnesses. -/
def timeEx0 : Time := ⟨0, "20260101", "2026-01-01T00:00:00Z"⟩

/-- A later example instant. -/
def timeEx5 : Time := ⟨5, "20260212", "2026-02-12T00:00:05Z"⟩

/-- An environment in which every external call succeeds. -/
def envAllOk : RunEnv :=
  ⟨timeEx5, true, true, "", true, "", true, "", true, ""⟩

/-- An environment in which the shell command fails. -/
def envCmdFails : RunEnv :=
  ⟨timeEx5, true, true, "", true, "", false, "exit status 1", true, ""⟩

/-- A concrete enabled task with an empty command. -/
def taskEmptyCmd : Task :=
  ⟨1, "t", "* * * * *", "", true, false, timeEx0, timeEx0⟩

/-- C3 witness: a concrete empty-command run. -/
theorem runTask_empty_command_witness :
    (runTask taskEmptyCmd [taskEmptyCmd] [] envAllOk).error =
      some RunErr.emptyCommand ∧
    (∀ c, Event.runCmd c ∉ (runTask taskEmptyCmd [taskEmptyCmd] [] envAllOk).events) ∧
    fileContent (runTask taskEmptyCmd [taskEmptyCmd] [] envAllOk).fs
        (logFileName taskEmptyCmd.ID envAllOk.now.day) =
      fileContent ([] : FS) (logFileName taskEmptyCmd.ID envAllOk.now.day) ++
        startedMarker taskEmptyCmd.Name envAllOk.now.rfc3339 ++
        emptyCommandMarker taskEmptyCmd.Name ∧
    (∀ u ∈ (runTask taskEmptyCmd [taskEmptyCmd] [] envAllOk).store,
      u.ID = taskEmptyCmd.ID → u.LastRun = envAllOk.now) :=
  runTask_empty_command _ _ _ _ (by decide) (by decide) (by decide) (by decide)

/-- C4: on every invocation of `runTask`, the `UpdateLastRun` store call
is the very first call issued — before the log file is opened and before
any shell command runs — and a failure of that write changes none of the
run's observable behaviour (return values, log writes, issued calls);
only the store row content can differ. -/
theorem runTask_updateLastRun_first (t : Task) (st : StoreState) (fs : FS)
    (env : RunEnv) (b : Bool) :
    (runTask t st fs env).events.head? =
      some (Event.updateLastRun t.ID env.now) ∧
    (runTask t st fs { env with updateLastRunOk := b }).deleted =
      (runTask t st fs env).deleted ∧
    (runTask t st fs { env with updateLastRunOk := b }).error =
      (runTask t st fs env).error ∧
    (runTask t st fs { env with updateLastRunOk := b }).fs =
      (runTask t st fs env).fs ∧
    (runTask t st fs { env with updateLastRunOk := b }).events =
      (runTask t st fs env).events := by
  constructor
  · simp only [runTask]
    split_ifs <;> rfl
  · cases env
    simp only [runTask]
    split_ifs <;> exact ⟨rfl, rfl, rfl, rfl⟩

/-- C2: a one-shot task, run in an environment where the logs directory,
log file and store delete all work. If the shell command succeeds, the
task is deleted from the store (`GetTaskByID` on its id now fails with
`sql.ErrNoRows`), `Reload()` is triggered and a reload over the new store
snapshot holds no trigger for the id, and `runTask` reports the consumed
case distinctly: `deleted = true` with no error. If instead the shell
command fails (environment `envF`), the task is not deleted: no delete
call is issued and the store keeps exactly the same row ids. -/
theorem runTask_one_shot (t : Task) (st : StoreState) (fs : FS)
    (env envF : RunEnv)
    (hos : t.OneShot = true) (hne : t.Command ≠ "")
    (hmk : env.mkdirOk = true) (hop : env.openOk = true)
    (hcm : env.cmdOk = true) (hde : env.deleteOk = true)
    (hmkF : envF.mkdirOk = true) (hopF : envF.openOk = true)
    (hcmF : envF.cmdOk = false) :
    ((runTask t st fs env).deleted = true ∧
     (runTask t st fs env).error = none ∧
     storeGetTaskByID (runTask t st fs env).store t.ID =
       .error .errNoRows ∧
     Event.reload ∈ (runTask t st fs env).events ∧
     (∀ (valid : String → Bool) (est : EngineState),
       alistLookup (Reload valid est
         (.ok (runTask t st fs env).store)).entries t.ID = none)) ∧
    ((runTask t st fs envF).deleted = false ∧
     (runTask t st fs envF).error =
       some (RunErr.commandFailed envF.cmdErrMsg) ∧
     Event.deleteTask t.ID ∉ (runTask t st fs envF).events ∧
     (runTask t st fs envF).store.map Task.ID = st.map Task.ID) := by
  have hst1 : ∀ e : RunEnv,
      ((if e.updateLastRunOk then storeUpdateLastRun st t.ID e.now else st).map
        Task.ID) = st.map Task.ID := by
    intro e
    by_cases hu : e.updateLastRunOk
    · rw [if_pos hu, storeUpdateLastRun_ids]
    · rw [if_neg hu]
  have hstore : (runTask t st fs env).store =
      storeDeleteTask
        (if env.updateLastRunOk then storeUpdateLastRun st t.ID env.now else st)
        t.ID := by
    simp [runTask, hmk, hop, hcm, hde, hos, hne]
  refine ⟨⟨?_, ?_, ?_, ?_, ?_⟩, ?_, ?_, ?_, ?_⟩
  · simp [runTask, hmk, hop, hcm, hde, hos, hne]
  · simp [runTask, hmk, hop, hcm, hde, hos, hne]
  · rw [hstore]
    exact storeGetTaskByID_deleted _ _
  · simp [runTask, hmk, hop, hcm, hde, hos, hne]
  · intro valid est
    cases hlk : alistLookup (Reload valid est
        (.ok (runTask t st fs env).store)).entries t.ID with
    | none => rfl
    | some e =>
        have hsome : (alistLookup (Reload valid est
            (.ok (runTask t st fs env).store)).entries t.ID).isSome := by
          rw [hlk]
          rfl
        rw [Reload_entries_lookup_isSome] at hsome
        obtain ⟨u, hu, hid, _, _⟩ := hsome
        rw [hstore] at hu
        rw [storeDeleteTask, List.mem_filter] at hu
        have := hu.2
        simp at this
        exact absurd hid this
  · simp [runTask, hmkF, hopF, hcmF, hne]
  · simp [runTask, hmkF, hopF, hcmF, hne]
  · simp [runTask, hmkF, hopF, hcmF, hne]
  · have : (runTask t st fs envF).store =
        (if envF.updateLastRunOk then storeUpdateLastRun st t.ID envF.now else st) := by
      simp [runTask, hmkF, hopF, hcmF, hne]
    rw [this]
    exact hst1 envF

/-- A concrete one-shot task with a nonempty command. -/
def taskOneShot : Task :=
  ⟨3, "o", "* * * * *", "echo once", true, true, timeEx0, timeEx0⟩

/-- C2 witness: a concrete one-shot run, succeeding and failing. -/
theorem runTask_one_shot_witness :
    ((runTask taskOneShot [taskOneShot] [] envAllOk).deleted = true ∧
     (runTask taskOneShot [taskOneShot] [] envAllOk).error = none ∧
     storeGetTaskByID (runTask taskOneShot [taskOneShot] [] envAllOk).store
       taskOneShot.ID = .error .errNoRows ∧
     Event.reload ∈ (runTask taskOneShot [taskOneShot] [] envAllOk).events ∧
     (∀ (valid : String → Bool) (est : EngineState),
       alistLookup (Reload valid est
         (.ok (runTask taskOneShot [taskOneShot] [] envAllOk).store)).entries
         taskOneShot.ID = none)) ∧
    ((runTask taskOneShot [taskOneShot] [] envCmdFails).deleted = false ∧
     (runTask taskOneShot [taskOneShot] [] envCmdFails).error =
       some (RunErr.commandFailed envCmdFails.cmdErrMsg) ∧
     Event.deleteTask taskOneShot.ID ∉
       (runTask taskOneShot [taskOneShot] [] envCmdFails).events ∧
     (runTask taskOneShot [taskOneShot] [] envCmdFails).store.map Task.ID =
       [taskOneShot].map Task.ID) :=
  runTask_one_shot _ _ _ _ _ (by decide) (by decide) (by decide) (by decide)
    (by decide) (by decide) (by decide) (by decide) (by decide)

/-- A stand-in concrete schedule parser for witnesses: accepts exactly the
standard five-field wildcard expression (the real external parser accepts
well-formed cron expressions and rejects malformed ones). -/
def validStar (s : String) : Bool := s == "* * * * *"

/-- A concrete enabled task with a well-formed schedule. -/
def taskGood : Task :=
  ⟨4, "g", "* * * * *", "echo hi", true, false, timeEx0, timeEx0⟩

/-- A concrete enabled task whose schedule the parser rejects. -/
def taskBadSched : Task :=
  ⟨7, "b", "not a schedule", "echo hi", true, false, timeEx0, timeEx0⟩

/-- C1 counterexample: an enabled task present in the snapshot whose
schedule expression the parser rejects has no trigger in the registry
after `Reload()`, so the registry does not contain one live trigger per
enabled task of the snapshot. -/
theorem Reload_registry_claim_counterexample :
    taskBadSched.Enabled = true ∧ taskBadSched ∈ [taskBadSched] ∧
    alistLookup (Reload validStar engineNew
      (.ok [taskBadSched])).entries taskBadSched.ID = none := by
  decide

/-- C1 (amended): after `Reload()` over the snapshot read during that
reload, the registry binds a task id exactly when the snapshot holds an
enabled task with that id whose schedule expression the parser accepts;
each bound id is bound once (no duplicate keys), and every binding's
handle is a live cron trigger registered for that task id. Disabled and
absent tasks (and enabled tasks with rejected schedules) have no
trigger. -/
theorem Reload_registry_exact (valid : String → Bool) (st : EngineState)
    (tasks : List Task) (hwf : WF st) :
    (∀ id, (alistLookup (Reload valid st (.ok tasks)).entries id).isSome ↔
      ∃ t ∈ tasks, t.ID = id ∧ t.Enabled = true ∧ valid t.Schedule = true) ∧
    ((Reload valid st (.ok tasks)).entries.map Prod.fst).Nodup ∧
    (∀ q ∈ (Reload valid st (.ok tasks)).entries,
      alistLookup (Reload valid st (.ok tasks)).cronEntries q.2 = some q.1) :=
  ⟨fun id => Reload_entries_lookup_isSome valid st tasks id,
   Reload_entries_keys_nodup valid st tasks,
   (WF_Reload valid (.ok tasks) hwf).2⟩

/-- C1 witness: the amended characterization at a concrete engine state
and snapshot. -/
theorem Reload_registry_exact_witness :
    WF engineNew ∧
    ((∀ id, (alistLookup (Reload validStar engineNew
        (.ok [taskGood])).entries id).isSome ↔
      ∃ t ∈ [taskGood], t.ID = id ∧ t.Enabled = true ∧
        validStar t.Schedule = true) ∧
    ((Reload validStar engineNew (.ok [taskGood])).entries.map Prod.fst).Nodup ∧
    (∀ q ∈ (Reload validStar engineNew (.ok [taskGood])).entries,
      alistLookup (Reload validStar engineNew
        (.ok [taskGood])).cronEntries q.2 = some q.1)) :=
  ⟨⟨by decide, by decide⟩,
   Reload_registry_exact validStar engineNew [taskGood] ⟨by decide, by decide⟩⟩

/-- C6: `Reload()` is idempotent when the store snapshot is unchanged:
the second reload yields a registry with the identical task-id key
sequence, a binding for an id exactly when the first had one, and — as
after the first reload — every binding's handle a live trigger. (The
opaque handle values are necessarily fresh: the cron scheduler assigns a
new entry id on every registration.) -/
theorem Reload_idempotent (valid : String → Bool) (st : EngineState)
    (tasks : List Task) (hwf : WF st) :
    (Reload valid (Reload valid st (.ok tasks)) (.ok tasks)).entries.map Prod.fst =
      (Reload valid st (.ok tasks)).entries.map Prod.fst ∧
    (∀ id,
      (alistLookup (Reload valid (Reload valid st (.ok tasks))
        (.ok tasks)).entries id).isSome =
      (alistLookup (Reload valid st (.ok tasks)).entries id).isSome) ∧
    (∀ q ∈ (Reload valid st (.ok tasks)).entries,
      alistLookup (Reload valid st (.ok tasks)).cronEntries q.2 = some q.1) ∧
    (∀ q ∈ (Reload valid (Reload valid st (.ok tasks)) (.ok tasks)).entries,
      alistLookup (Reload valid (Reload valid st (.ok tasks))
        (.ok tasks)).cronEntries q.2 = some q.1) := by
  refine ⟨Reload_entries_keys_congr valid _ _ tasks, ?_,
    (WF_Reload valid (.ok tasks) hwf).2,
    (WF_Reload valid (.ok tasks) (WF_Reload valid (.ok tasks) hwf)).2⟩
  intro id
  rw [Bool.eq_iff_iff, Reload_entries_lookup_isSome, Reload_entries_lookup_isSome]

/-- C6 witness: idempotence at a concrete engine state and snapshot. -/
theorem Reload_idempotent_witness :
    WF engineNew ∧
    ((Reload validStar (Reload validStar engineNew (.ok [taskGood]))
        (.ok [taskGood])).entries.map Prod.fst =
      (Reload validStar engineNew (.ok [taskGood])).entries.map Prod.fst) :=
  ⟨⟨by decide, by decide⟩,
   (Reload_idempotent validStar engineNew [taskGood] ⟨by decide, by decide⟩).1⟩

/-- C7: a task whose schedule expression the parser rejects is skipped by
`Reload()` — no trigger is registered for it (its id is unbound,
provided no other task reuses its id) — while every other enabled task
with an accepted schedule still gets a live trigger registered.
(`Reload` and `addTask` are total: the parse failure is logged, never
propagated.) -/
theorem Reload_skips_malformed (valid : String → Bool) (st : EngineState)
    (tasks : List Task) (tBad : Task) (hwf : WF st) (hbad : tBad ∈ tasks)
    (hbadSched : valid tBad.Schedule = false)
    (huniq : ∀ u ∈ tasks, u.ID = tBad.ID → u = tBad) :
    alistLookup (Reload valid st (.ok tasks)).entries tBad.ID = none ∧
    (∀ u ∈ tasks, u.Enabled = true → valid u.Schedule = true →
      ∃ eid, alistLookup (Reload valid st (.ok tasks)).entries u.ID = some eid ∧
        alistLookup (Reload valid st (.ok tasks)).cronEntries eid = some u.ID) := by
  constructor
  · cases hlk : alistLookup (Reload valid st (.ok tasks)).entries tBad.ID with
    | none => rfl
    | some e =>
        have hsome : (alistLookup (Reload valid st
            (.ok tasks)).entries tBad.ID).isSome := by
          rw [hlk]
          rfl
        rw [Reload_entries_lookup_isSome] at hsome
        obtain ⟨u, hu, hid, _, hval⟩ := hsome
        rw [huniq u hu hid] at hval
        exact absurd hval (by rw [hbadSched]; simp)
  · intro u hu hen hval
    have hsome : (alistLookup (Reload valid st (.ok tasks)).entries u.ID).isSome :=
      (Reload_entries_lookup_isSome valid st tasks u.ID).mpr ⟨u, hu, rfl, hen, hval⟩
    obtain ⟨eid, heid⟩ := Option.isSome_iff_exists.mp hsome
    exact ⟨eid, heid,
      (WF_Reload valid (.ok tasks) hwf).2 (u.ID, eid) (alistLookup_mem heid)⟩

/-- C7 witness: a snapshot holding one malformed-schedule task and one
well-formed enabled task. -/
theorem Reload_skips_malformed_witness :
    WF engineNew ∧ taskBadSched ∈ [taskBadSched, taskGood] ∧
    validStar taskBadSched.Schedule = false ∧
    (∀ u ∈ [taskBadSched, taskGood], u.ID = taskBadSched.ID → u = taskBadSched) ∧
    (alistLookup (Reload validStar engineNew
      (.ok [taskBadSched, taskGood])).entries taskBadSched.ID = none ∧
    (∀ u ∈ [taskBadSched, taskGood], u.Enabled = true →
      validStar u.Schedule = true →
      ∃ eid, alistLookup (Reload validStar engineNew
          (.ok [taskBadSched, taskGood])).entries u.ID = some eid ∧
        alistLookup (Reload validStar engineNew
          (.ok [taskBadSched, taskGood])).cronEntries eid = some u.ID)) :=
  ⟨⟨by decide, by decide⟩, by decide, by decide, by decide,
   Reload_skips_malformed validStar engineNew [taskBadSched, taskGood]
     taskBadSched ⟨by decide, by decide⟩ (by decide) (by decide) (by decide)⟩

/-- C10: when the `GetTasks` store read fails during `Reload()`, the
reload returns with the registry empty, and every trigger handle that the
registry held before the reload has already been removed from the cron
scheduler: a single failed reload leaves no task scheduled. -/
theorem Reload_store_failure (valid : String → Bool) (st : EngineState)
    (msg : String) :
    (Reload valid st (.error msg)).entries = [] ∧
    ∀ q ∈ st.entries,
      alistLookup (Reload valid st (.error msg)).cronEntries q.2 = none := by
  constructor
  · rfl
  · intro q hq
    apply alistLookup_eq_none_of_forall
    intro p hp
    have hp' : p ∈ (clearEntries st).cronEntries := hp
    simp only [clearEntries, List.mem_filter] at hp'
    have h2 := hp'.2
    rw [Bool.not_eq_true', List.any_eq_false] at h2
    have := h2 q hq
    intro hpq
    rw [hpq] at this
    simp at this

/-- An engine state holding one live registered trigger. -/
def engineOne : EngineState := ⟨[(1, 0)], [(0, 1)], 1⟩

/-- C10 witness: a failed reload from a state with one live trigger. -/
theorem Reload_store_failure_witness :
    (1, 0) ∈ engineOne.entries ∧
    alistLookup (Reload validStar engineOne
      (.error "db closed")).cronEntries 0 = none :=
  ⟨by decide,
   (Reload_store_failure validStar engineOne "db closed").2 (1, 0) (by decide)⟩

/-- C9: `RunTaskNow` on an id the store does not hold fails with the
distinct not-found condition (the error wrapping `sql.ErrNoRows`, which
`errors.Is` recognizes and which is distinguishable from generic store or
run errors), without running anything; on an id the store holds, it runs
the task synchronously and returns the run's result and side effects. -/
theorem RunTaskNow_spec (st : StoreState) (fs : FS) (env : RunEnv)
    (idAbsent : Int) (t : Task)
    (habs : storeGetTaskByID st idAbsent = .error .errNoRows)
    (hpres : storeGetTaskByID st t.ID = .ok t) :
    ((RunTaskNow idAbsent st fs none env).error =
        some (.notFound idAbsent) ∧
     (∀ e, (RunTaskNow idAbsent st fs none env).error = some e →
        errIsNoRows e = true) ∧
     (RunTaskNow idAbsent st fs none env).events = [] ∧
     (RunTaskNow idAbsent st fs none env).store = st ∧
     (∀ msg, errIsNoRows (EngineErr.storeFailure msg) = false) ∧
     (∀ e, errIsNoRows (EngineErr.runFailed e) = false)) ∧
    ((RunTaskNow t.ID st fs none env).error =
        (runTask t st fs env).error.map EngineErr.runFailed ∧
     (RunTaskNow t.ID st fs none env).store = (runTask t st fs env).store ∧
     (RunTaskNow t.ID st fs none env).fs = (runTask t st fs env).fs ∧
     (RunTaskNow t.ID st fs none env).events = (runTask t st fs env).events) := by
  constructor
  · refine ⟨?_, ?_, ?_, ?_, fun msg => rfl, fun e => rfl⟩ <;>
      simp [RunTaskNow, habs, errIsNoRows]
  · refine ⟨?_, ?_, ?_, ?_⟩ <;> simp [RunTaskNow, hpres]

/-- C9 witness: a one-row store, an absent id and the present id. -/
theorem RunTaskNow_spec_witness :
    storeGetTaskByID [taskGood] 99 = .error .errNoRows ∧
    storeGetTaskByID [taskGood] taskGood.ID = .ok taskGood ∧
    ((RunTaskNow 99 [taskGood] [] none envAllOk).error =
        some (.notFound 99) ∧
     (RunTaskNow taskGood.ID [taskGood] [] none envAllOk).error =
        (runTask taskGood [taskGood] [] envAllOk).error.map
          EngineErr.runFailed) :=
  ⟨by rfl, by rfl,
   ((RunTaskNow_spec [taskGood] [] envAllOk 99 taskGood (by rfl)
      (by rfl)).1.1),
   ((RunTaskNow_spec [taskGood] [] envAllOk 99 taskGood (by rfl)
      (by rfl)).2.1)⟩

/-- C5: a janitor pass over an existing logs directory deletes every
regular file (whose info and remove calls succeed) with modification time
strictly before `now - retention`, preserves every file with modification
time at or after the cutoff (a file exactly at the cutoff is not
expired), and treats a missing logs directory as nothing-to-purge with no
error logged. -/
theorem PurgeOldLogs_spec (entries : List DirEntry) (now retention : Int)
    (f g : DirEntry)
    (hf : f ∈ entries) (hfd : f.isDir = false) (hfi : f.infoOk = true)
    (hfr : f.removeOk = true) (hold : f.modTime < now - retention)
    (hg : g ∈ entries) (hnew : now - retention ≤ g.modTime) :
    (∃ kept, PurgeOldLogs (.ok entries) now retention = (.ok kept, false) ∧
      f ∉ kept ∧ g ∈ kept) ∧
    PurgeOldLogs (.error .notExist) now retention =
      (.error .notExist, false) := by
  refine ⟨⟨entries.filter (keepEntry (now - retention)), rfl, ?_, ?_⟩, rfl⟩
  · intro hmem
    rw [List.mem_filter] at hmem
    have hk := hmem.2
    unfold keepEntry at hk
    rw [hfd, hfi, hfr] at hk
    simp [hold] at hk
  · rw [List.mem_filter]
    refine ⟨hg, ?_⟩
    unfold keepEntry
    have hng : ¬ (g.modTime < now - retention) := not_lt.mpr hnew
    simp [hng]

/-- An old log file (modification time before the cutoff used below). -/
def fileOld : DirEntry := ⟨"task_1_20250101.log", false, 50, true, true⟩

/-- A log file exactly at the cutoff used below. -/
def fileAtCutoff : DirEntry := ⟨"task_1_20260210.log", false, 90, true, true⟩

/-- C5 witness: pass at `now = 100`, `retention = 10` (cutoff 90) over an
old file and a file exactly at the cutoff: the old one goes, the boundary
one stays, and a missing directory purges nothing. -/
theorem PurgeOldLogs_spec_witness :
    fileOld ∈ [fileOld, fileAtCutoff] ∧ fileOld.modTime < 100 - 10 ∧
    (100 : Int) - 10 ≤ fileAtCutoff.modTime ∧
    ((∃ kept, PurgeOldLogs (.ok [fileOld, fileAtCutoff]) 100 10 =
        (.ok kept, false) ∧ fileOld ∉ kept ∧ fileAtCutoff ∈ kept) ∧
     PurgeOldLogs (.error .notExist) 100 10 = (.error .notExist, false)) :=
  ⟨by decide, by decide, by decide,
   PurgeOldLogs_spec [fileOld, fileAtCutoff] 100 10 fileOld fileAtCutoff
     (by decide) (by decide) (by decide) (by decide) (by decide) (by decide)
     (by decide)⟩

/-- C8: when the legacy file `task_<id>.log` is present, reading the
task's logs returns the legacy file's content first, immediately followed
by the matching daily files' contents concatenated in sorted filename
order. -/
theorem readTaskLogs_legacy_first (id : Int) (fs : FS) (a : String)
    (hleg : alistLookup fs (legacyLogName id) = some a) :
    readTaskLogs id fs =
      a ++ concatAll ((sortNames ((fs.map Prod.fst).filter
        (matchesDailyPattern id))).map (fun n => (alistLookup fs n).getD "")) := by
  unfold readTaskLogs
  rw [hleg]
  simp [concatAll, hleg]

/-- The concrete log directory of the spec's scenario: a legacy file for
task 3 with content `A` and a daily file with content `B`. -/
def fsLogsEx : FS := [("task_3.log", "A"), ("task_3_20260212.log", "B")]

/-- C8 witness: the spec's concrete scenario — the result is the legacy
content immediately followed by the daily content. -/
theorem readTaskLogs_legacy_first_witness :
    alistLookup fsLogsEx (legacyLogName 3) = some "A" ∧
    readTaskLogs 3 fsLogsEx =
      "A" ++ concatAll ((sortNames ((fsLogsEx.map Prod.fst).filter
        (matchesDailyPattern 3))).map
          (fun n => (alistLookup fsLogsEx n).getD "")) ∧
    readTaskLogs 3 fsLogsEx = "AB" :=
  ⟨by decide, readTaskLogs_legacy_first 3 fsLogsEx "A" (by decide), by decide⟩

end OpenCron
